import Mathlib

set_option maxHeartbeats 1000000

/-! Shallow embedding of src/edge_detector.c: the PPM pixel model, the
Laplacian convolution worker (compute_laplacian_threadfn), the row
partitioner and filter engine (apply_filters), the image codec
(read_image / write_image), and the batch orchestrator (manage_image_file
and the main loop).  Machine integers are modelled with Nat/Int; buffers
are flat row-major lists indexed y*w+x exactly as in the C. -/

/-- A pixel: three 8-bit unsigned channels, struct PPMPixel in the source.
Channels are naturals; the code only ever stores values in [0,255]. -/
structure PPMPixel where
  r : Nat
  g : Nat
  b : Nat
  deriving DecidableEq

/-- FILTER_WIDTH from the source. -/
def FILTER_WIDTH : Nat := 3

/-- FILTER_HEIGHT from the source. -/
def FILTER_HEIGHT : Nat := 3

/-- RGB_COMPONENT_COLOR from the source. -/
def RGB_COMPONENT_COLOR : Nat := 255

/-- The fixed 3x3 Laplacian kernel, the initializer of the local array
in compute_laplacian_threadfn. -/
def laplacian : List (List Int) := [[-1, -1, -1], [-1, 8, -1], [-1, -1, -1]]

/-- Kernel weight laplacian[fh][fw] as read inside the filter loops. -/
def lapAt (fh fw : Nat) : Int := (laplacian.getD fh []).getD fw 0

/-- The nested filter loops of compute_laplacian_threadfn for one output
pixel: accumulate (red, green, blue) over the 3x3 window.  The C index
expression ( x - FILTER_WIDTH/2 + fw + w ) % w is written
( x + w - FILTER_WIDTH/2 + fw ) % w so the subtraction stays in Nat; for
w >= 1 the two agree with the C's unsigned arithmetic. -/
def convAccum (image : List PPMPixel) (w h x y : Nat) : Int × Int × Int :=
  (List.range FILTER_WIDTH).foldl (fun acc fw =>
    (List.range FILTER_HEIGHT).foldl (fun acc2 fh =>
      let xc := (x + w - FILTER_WIDTH / 2 + fw) % w
      let yc := (y + h - FILTER_HEIGHT / 2 + fh) % h
      let p := image.getD (yc * w + xc) ⟨0, 0, 0⟩
      ((acc2.1 + (p.r : Int) * lapAt fh fw,
        acc2.2.1 + (p.g : Int) * lapAt fh fw,
        acc2.2.2 + (p.b : Int) * lapAt fh fw) : Int × Int × Int)) acc)
    ((0, 0, 0) : Int × Int × Int)

/-- Truncation of a channel sum as in the source: values below zero become
0, values above 255 become 255. -/
def clamp (v : Int) : Int := if v < 0 then 0 else if v > 255 then 255 else v

/-- The pixel stored at result[y * w + x] by compute_laplacian_threadfn. -/
def convPixel (image : List PPMPixel) (w h x y : Nat) : PPMPixel :=
  let s := convAccum image w h x y
  ⟨(clamp s.1).toNat, (clamp s.2.1).toNat, (clamp s.2.2).toNat⟩

/-- The inner height loop of compute_laplacian_threadfn for one column x:
store the filtered pixel at result[y * w + x] for each row y in ys. -/
def innerRows (image : List PPMPixel) (w h x : Nat) (ys : List Nat)
    (res : List PPMPixel) : List PPMPixel :=
  ys.foldl (fun buf y => buf.set (y * w + x) (convPixel image w h x y)) res

/-- compute_laplacian_threadfn: for each column x in [0,w) and each row y
in [start, start + size), write the filtered pixel into the result
buffer.  Outer loop over the width, inner loop over the assigned rows,
as in the source. -/
def workerRun (image : List PPMPixel) (w h start size : Nat)
    (res : List PPMPixel) : List PPMPixel :=
  (List.range w).foldl
    (fun buf x => innerRows image w h x (List.range' start size) buf) res

/-- LAPLACIAN_THREADS from the source. -/
def LAPLACIAN_THREADS : Nat := 23

/-- The partition handed to worker i by apply_filters: start = i * work
with work = h / N, and size = work except for the last worker, which
takes h - start (the code branch i == LAPLACIAN_THREADS - 1). -/
def partitionOf (h N i : Nat) : Nat × Nat :=
  (i * (h / N), if i = N - 1 then h - i * (h / N) else h / N)

/-- All N partitions built by the launch loop of apply_filters. -/
def partitionsFn (h N : Nat) : List (Nat × Nat) :=
  (List.range N).map (partitionOf h N)

/-- Run a list of convolution workers over the shared result buffer, one
after the other.  The C launches them concurrently; since each writes
only its own rows and the written values depend only on the read-only
source, any interleaving acts like some sequential order of the
row-level stores, which this fold models. -/
def runWorkers (image : List PPMPixel) (w h : Nat) (ps : List (Nat × Nat))
    (res : List PPMPixel) : List PPMPixel :=
  ps.foldl (fun buf p => workerRun image w h p.1 p.2 buf) res

/-- apply_filters with the thread count as a parameter: allocate the
result buffer of w * h pixels and run one worker per partition. -/
def applyFiltersWith (N : Nat) (image : List PPMPixel) (w h : Nat) :
    List PPMPixel :=
  runWorkers image w h (partitionsFn h N) (List.replicate (w * h) ⟨0, 0, 0⟩)

/-- apply_filters from the source, with its fixed LAPLACIAN_THREADS. -/
def apply_filters (image : List PPMPixel) (w h : Nat) : List PPMPixel :=
  applyFiltersWith LAPLACIAN_THREADS image w h

/-- The spec's kernel [[-1,-1,-1],[-1,8,-1],[-1,-1,-1]] (section 3). -/
def kernelSpec : List (List Int) := [[-1, -1, -1], [-1, 8, -1], [-1, -1, -1]]

/-- Modelled from the spec (section 4.3): the per-channel sum
sum over dx,dy in [-1..1] of kernel[dy+1][dx+1] *
source[(y+dy) mod H][(x+dx) mod W].c, with mathematical (euclidean) mod
for the toroidal wrap. -/
def specChannel (image : List PPMPixel) (w h x y : Nat)
    (ch : PPMPixel → Nat) : Int :=
  (([-1, 0, 1] : List Int).map (fun dy =>
    (([-1, 0, 1] : List Int).map (fun dx =>
      (kernelSpec.getD (dy + 1).toNat []).getD (dx + 1).toNat 0 *
        (ch (image.getD
          ((((y : Int) + dy) % (h : Int)).toNat * w +
            (((x : Int) + dx) % (w : Int)).toNat) ⟨0, 0, 0⟩) : Int))).sum)).sum

/-- Modelled from the spec (section 4.3): the filtered pixel, each channel
clamped to [0,255]. -/
def specPixel (image : List PPMPixel) (w h x y : Nat) : PPMPixel :=
  ⟨(clamp (specChannel image w h x y (fun p => p.r))).toNat,
   (clamp (specChannel image w h x y (fun p => p.g))).toNat,
   (clamp (specChannel image w h x y (fun p => p.b))).toNat⟩

/-- Modelled from the spec (sections 4.3 and 5): a single sequential
whole-image convolution pass, pixel i of the row-major output computed
from column i mod w and row i div w. -/
def seqConvSpec (image : List PPMPixel) (w h : Nat) : List PPMPixel :=
  (List.range (w * h)).map (fun i => specPixel image w h (i % w) (i / w))

/-! The image codec (read_image / write_image) modelled at byte level.
A file is a list of byte values; reading consumes from the front. -/

/-- Helper for fgets: read at most n more characters, stopping after a
newline; returns the characters read and the remaining stream. -/
def fgetsAux : Nat → List Nat → List Nat × List Nat
  | 0, s => ([], s)
  | _ + 1, [] => ([], [])
  | n + 1, c :: rest =>
    if c = 10 then ([10], rest)
    else
      let p := fgetsAux n rest
      (c :: p.1, p.2)

/-- fgets(buff, sizeof(buff), fp) with the 64-byte buffer of read_image:
reads up to 63 characters, stopping after a newline; none models the NULL
return at end of file. -/
def fgets63 (s : List Nat) : Option (List Nat × List Nat) :=
  match s with
  | [] => none
  | c :: rest => some (fgetsAux 63 (c :: rest))

/-- The marker check buff[0] == 'P' && buff[1] == '6' of read_image; the
default 0 of getD models the NUL terminator fgets places after a short
read. -/
def markerOk (line : List Nat) : Bool :=
  line.getD 0 0 == 80 && line.getD 1 0 == 54

/-- The loop while(fgetc(fp) != '\n'); of read_image: consume up to and
including the next newline.  At end of file fgetc returns EOF, never
'\n', and the loop spins forever; none models that divergence. -/
def skipToNl : List Nat → Option (List Nat)
  | [] => none
  | c :: rest => if c = 10 then some rest else skipToNl rest

/-- The comment-skipping loops of read_image as a two-state scanner:
state false is the outer test x == '#' (x freshly read by getc), state
true is the inner while (getc(fp) != '\n');.  In state true at end of
file getc returns EOF forever and the inner loop never exits; none
models that divergence.  The final ungetc leaves the first non-comment
character on the stream. -/
def skipCommentsAux : Bool → List Nat → Option (List Nat)
  | false, [] => some []
  | false, c :: rest => if c = 35 then skipCommentsAux true rest else some (c :: rest)
  | true, [] => none
  | true, c :: rest => if c = 10 then skipCommentsAux false rest else skipCommentsAux true rest

/-- Skipping all header comment lines, starting at the outer test. -/
def skipComments (s : List Nat) : Option (List Nat) := skipCommentsAux false s

/-- The character class a scanf integer conversion accepts as a digit. -/
def isDigit (c : Nat) : Bool := 48 ≤ c && c ≤ 57

/-- The white-space characters scanf skips before a conversion. -/
def isSpace (c : Nat) : Bool :=
  c == 32 || c == 10 || c == 9 || c == 11 || c == 12 || c == 13

/-- Accumulate decimal digits as scanf does, leaving the first non-digit
character on the stream. -/
def parseNatAcc : List Nat → Nat → Nat × List Nat
  | [], acc => (acc, [])
  | c :: rest, acc =>
    if isDigit c then parseNatAcc rest (acc * 10 + (c - 48)) else (acc, c :: rest)

/-- Body of a fscanf integer conversion after white space was skipped:
an optional sign, then at least one digit; none models a matching
failure or end of file (fscanf returning short). -/
def parseLongAux : List Nat → Option (Int × List Nat)
  | [] => none
  | c :: rest =>
    if c = 45 then
      if isDigit (rest.headD 0) then
        some (-((parseNatAcc rest 0).1 : Int), (parseNatAcc rest 0).2)
      else none
    else if c = 43 then
      if isDigit (rest.headD 0) then
        some (((parseNatAcc rest 0).1 : Int), (parseNatAcc rest 0).2)
      else none
    else if isDigit c then
      some (((parseNatAcc (c :: rest) 0).1 : Int), (parseNatAcc (c :: rest) 0).2)
    else none

/-- One fscanf integer conversion (%ld or %d): skip white space, then
read the signed number. -/
def parseLong (s : List Nat) : Option (Int × List Nat) :=
  parseLongAux (s.dropWhile isSpace)

/-- Conversion of the scanned value to the unsigned long the C stores
through the width/height pointers. -/
def toULong (v : Int) : Nat := (v % (2 ^ 64 : Int)).toNat

/-- The pixel-reading loop of read_image: each fread(rgb_color, 3, 1, fp)
either yields a full 3-byte triplet or returns 0 and the loop breaks,
leaving the buffer only partially filled. -/
def readPixels : Nat → List Nat → List PPMPixel
  | 0, _ => []
  | n + 1, r :: g :: b :: rest => ⟨r, g, b⟩ :: readPixels n rest
  | _ + 1, _ => []

/-- The four decode failures of section 7. -/
inductive DecodeError
  | ioError
  | formatError
  | sizeError
  | rangeError
  deriving DecidableEq

/-- Result of read_image: a decoded image, an error (the task calls
pthread_exit), or divergence of one of the newline-waiting loops. -/
inductive DecodeResult
  | ok (w h : Nat) (pixels : List PPMPixel)
  | err (e : DecodeError)
  | hang
  deriving DecidableEq

/-- read_image on the bytes of an opened file: marker check, comment
skipping, width/height via fscanf %ld %ld, max colour value via %d
compared against RGB_COMPONENT_COLOR, one newline skipped, then
width*height pixel triplets (unsigned long arithmetic for the count). -/
def read_image_bytes (s : List Nat) : DecodeResult :=
  match fgets63 s with
  | none => .err .formatError
  | some (line, s1) =>
    if markerOk line then
      match skipComments s1 with
      | none => .hang
      | some s2 =>
        match parseLong s2 with
        | none => .err .sizeError
        | some (wv, s3) =>
          match parseLong s3 with
          | none => .err .sizeError
          | some (hv, s4) =>
            match parseLong s4 with
            | none => .err .rangeError
            | some (rv, s5) =>
              if rv = (RGB_COMPONENT_COLOR : Int) then
                match skipToNl s5 with
                | none => .hang
                | some s6 =>
                  .ok (toULong wv) (toULong hv)
                    (readPixels ((toULong wv * toULong hv) % 2 ^ 64) s6)
              else .err .rangeError
    else .err .formatError

/-- read_image including the fopen step: none models a path that cannot
be opened, on which the task exits with IOError. -/
def read_image (file : Option (List Nat)) : DecodeResult :=
  match file with
  | none => .err .ioError
  | some s => read_image_bytes s

/-- Decimal digits of an unsigned value as fprintf %lu prints them. -/
def natDigits (n : Nat) : List Nat :=
  if n = 0 then [48] else (Nat.digits 10 n).reverse.map (fun d => d + 48)

/-- The raw triplets fwrite(image, 3 * width, height, fp) emits, in
row-major order. -/
def pixelBytes (img : List PPMPixel) : List Nat :=
  img.foldr (fun p acc => p.r :: p.g :: p.b :: acc) []

/-- The header block write_image prints: "P6\n", "%lu %lu\n" with width
and height, then "%d\n" with RGB_COMPONENT_COLOR. -/
def write_header (w h : Nat) : List Nat :=
  [80, 54, 10] ++ natDigits w ++ [32] ++ natDigits h ++ [10] ++ [50, 53, 53, 10]

/-- All bytes write_image emits for an image of w * h pixels. -/
def write_image_bytes (img : List PPMPixel) (w h : Nat) : List Nat :=
  write_header w h ++ pixelBytes (img.take (w * h))

/-- Outcome of write_image: the bytes written, or a crash. -/
inductive WriteOutcome
  | written (bytes : List Nat)
  | crashed
  deriving DecidableEq

/-- write_image with the fopen outcome made explicit.  When fopen fails
the C prints the error message but does not return: it falls through and
calls fprintf on the NULL stream, undefined behaviour that crashes the
process, modelled as crashed. -/
def write_image (openOk : Bool) (img : List PPMPixel) (w h : Nat) : WriteOutcome :=
  if openOk then .written (write_image_bytes img w h) else .crashed

/-- The output file name snprintf builds for the (i+1)-th input,
"laplacian%d.ppm" truncated to the 20-byte buffer (19 characters plus
NUL). -/
def outName (i : Nat) : String :=
  (("laplacian" ++ Nat.repr (i + 1)) ++ ".ppm").take 19

/-- Outcome of one manager task: an output file written, a task-local
abort after a decode error (pthread_exit), or a hung decode loop. -/
inductive TaskOutcome
  | output (name : String) (bytes : List Nat)
  | failed (e : DecodeError)
  | hang
  deriving DecidableEq

/-- manage_image_file: decode, filter, encode to laplacian(i+1).ppm.  On a
decode error read_image calls pthread_exit, so the task produces nothing
and the filter and encode steps never run.  The output path is taken as
writable here; write_image covers the unwritable case. -/
def manage_image_file (file : Option (List Nat)) (i : Nat) : TaskOutcome :=
  match read_image file with
  | .ok w h px => .output (outName i) (write_image_bytes (apply_filters px w h) w h)
  | .err e => .failed e
  | .hang => .hang

/-- The launch loop of main, one manager task per input file, argument
index counting up from 0. -/
def batchRun : Nat → List (Option (List Nat)) → List TaskOutcome
  | _, [] => []
  | i, f :: fs => manage_image_file f i :: batchRun (i + 1) fs

/-- All task outcomes of one batch. -/
def batchOutcomes (files : List (Option (List Nat))) : List TaskOutcome :=
  batchRun 0 files

/-- The batch completes (main joins every thread and prints the timing
total) exactly when no task hangs inside a decode loop. -/
def batchCompletes (files : List (Option (List Nat))) : Prop :=
  ∀ o ∈ batchOutcomes files, o ≠ TaskOutcome.hang

/-! Helper lemmas about the convolution engine. -/

lemma wrapGen (w x f : Nat) (hw : 1 ≤ w) :
    (x + w - 3 / 2 + f) % w = (((x : Int) + ((f : Int) - 1)) % (w : Int)).toNat := by
  show (x + w - 1 + f) % w = (((x : Int) + ((f : Int) - 1)) % (w : Int)).toNat
  have h0 : (((x + w - 1 + f) % w : Nat) : Int) = ((x + w - 1 + f : Nat) : Int) % (w : Int) :=
    Int.ofNat_emod _ _
  have h3 : ((x + w - 1 + f : Nat) : Int) = (x : Int) + ((f : Int) - 1) + (w : Int) * 1 := by
    omega
  have key : (((x + w - 1 + f) % w : Nat) : Int) = ((x : Int) + ((f : Int) - 1)) % (w : Int) := by
    rw [h0, h3, Int.add_mul_emod_self_left]
  omega

lemma wrap0 (w x : Nat) (hw : 1 ≤ w) :
    (x + w - 3 / 2 + 0) % w = (((x : Int) + -1) % (w : Int)).toNat := by
  have := wrapGen w x 0 hw; simpa using this

lemma wrap1 (w x : Nat) (hw : 1 ≤ w) :
    (x + w - 3 / 2 + 1) % w = (((x : Int) + 0) % (w : Int)).toNat := by
  have := wrapGen w x 1 hw; simpa using this

lemma wrap2 (w x : Nat) (hw : 1 ≤ w) :
    (x + w - 3 / 2 + 2) % w = (((x : Int) + 1) % (w : Int)).toNat := by
  have := wrapGen w x 2 hw; simpa using this

lemma convAccum_eq_spec (image : List PPMPixel) (w h x y : Nat) (hw : 1 ≤ w) (hh : 1 ≤ h) :
    convAccum image w h x y =
      (specChannel image w h x y (fun p => p.r),
       specChannel image w h x y (fun p => p.g),
       specChannel image w h x y (fun p => p.b)) := by
  simp only [convAccum, specChannel, FILTER_WIDTH, FILTER_HEIGHT,
    List.range_succ, List.range_zero, List.nil_append, List.cons_append,
    List.foldl_cons, List.foldl_nil, List.map_cons, List.map_nil,
    List.sum_cons, List.sum_nil]
  rw [wrap0 w x hw, wrap1 w x hw, wrap2 w x hw, wrap0 h y hh, wrap1 h y hh, wrap2 h y hh]
  simp only [show lapAt 0 0 = -1 from rfl, show lapAt 0 1 = -1 from rfl,
    show lapAt 0 2 = -1 from rfl, show lapAt 1 0 = -1 from rfl,
    show lapAt 1 1 = 8 from rfl, show lapAt 1 2 = -1 from rfl,
    show lapAt 2 0 = -1 from rfl, show lapAt 2 1 = -1 from rfl,
    show lapAt 2 2 = -1 from rfl,
    show ((-1 : Int) + 1).toNat = 0 from rfl, show ((0 : Int) + 1).toNat = 1 from rfl,
    show ((1 : Int) + 1).toNat = 2 from rfl,
    show (kernelSpec.getD 0 []).getD 0 0 = -1 from rfl,
    show (kernelSpec.getD 0 []).getD 1 0 = -1 from rfl,
    show (kernelSpec.getD 0 []).getD 2 0 = -1 from rfl,
    show (kernelSpec.getD 1 []).getD 0 0 = -1 from rfl,
    show (kernelSpec.getD 1 []).getD 1 0 = 8 from rfl,
    show (kernelSpec.getD 1 []).getD 2 0 = -1 from rfl,
    show (kernelSpec.getD 2 []).getD 0 0 = -1 from rfl,
    show (kernelSpec.getD 2 []).getD 1 0 = -1 from rfl,
    show (kernelSpec.getD 2 []).getD 2 0 = -1 from rfl]
  refine Prod.ext ?_ (Prod.ext ?_ ?_) <;> ring

lemma rowcol_inj (w x1 x2 y1 y2 : Nat) (h1 : x1 < w) (h2 : x2 < w)
    (he : y1 * w + x1 = y2 * w + x2) : x1 = x2 ∧ y1 = y2 := by
  have e1 : (x1 + y1 * w) % w = x1 := by
    rw [Nat.add_mul_mod_self_right]; exact Nat.mod_eq_of_lt h1
  have e2 : (x2 + y2 * w) % w = x2 := by
    rw [Nat.add_mul_mod_self_right]; exact Nat.mod_eq_of_lt h2
  have hx : x1 = x2 := by
    rw [← e1, ← e2, Nat.add_comm x1, Nat.add_comm x2, he]
  refine ⟨hx, ?_⟩
  have hmul : y1 * w = y2 * w := by omega
  exact Nat.eq_of_mul_eq_mul_right (Nat.lt_of_le_of_lt (Nat.zero_le _) h1) hmul

lemma innerRows_nil (image : List PPMPixel) (w h x : Nat) (res : List PPMPixel) :
    innerRows image w h x [] res = res := rfl

lemma innerRows_cons (image : List PPMPixel) (w h x y : Nat) (ys : List Nat)
    (res : List PPMPixel) :
    innerRows image w h x (y :: ys) res =
      innerRows image w h x ys (res.set (y * w + x) (convPixel image w h x y)) := rfl

lemma innerRows_length (image : List PPMPixel) (w h x : Nat) (ys : List Nat)
    (res : List PPMPixel) : (innerRows image w h x ys res).length = res.length := by
  induction ys generalizing res with
  | nil => rfl
  | cons y ys ih => rw [innerRows_cons, ih, List.length_set]

lemma innerRows_getD_not_mem (image : List PPMPixel) (w h x : Nat) (ys : List Nat)
    (res : List PPMPixel) (i : Nat) (d : PPMPixel)
    (hni : ∀ y ∈ ys, i ≠ y * w + x) :
    (innerRows image w h x ys res).getD i d = res.getD i d := by
  induction ys generalizing res with
  | nil => rfl
  | cons y ys ih =>
    rw [innerRows_cons, ih _ (fun y' hy' => hni y' (List.mem_cons_of_mem _ hy'))]
    have hne : y * w + x ≠ i := fun he => (hni y (List.mem_cons_self _ _)) he.symm
    simp only [List.getD_eq_getElem?_getD, List.getElem?_set_ne hne]

lemma innerRows_getD_mem (image : List PPMPixel) (w h x : Nat) (ys : List Nat)
    (res : List PPMPixel) (y : Nat) (d : PPMPixel)
    (hnd : ys.Nodup) (hmem : y ∈ ys) (hx : x < w) (hi : y * w + x < res.length) :
    (innerRows image w h x ys res).getD (y * w + x) d = convPixel image w h x y := by
  induction ys generalizing res with
  | nil => cases hmem
  | cons y' ys ih =>
    rw [innerRows_cons]
    rcases List.mem_cons.mp hmem with he | hm
    · subst he
      have hnotin : y ∉ ys := (List.nodup_cons.mp hnd).1
      have hdiff : ∀ y'' ∈ ys, y * w + x ≠ y'' * w + x := by
        intro y'' hy'' he
        have := (rowcol_inj w x x y y'' hx hx he).2
        exact hnotin (this ▸ hy'')
      rw [innerRows_getD_not_mem image w h x ys _ _ d hdiff]
      simp only [List.getD_eq_getElem?_getD]
      rw [List.getElem?_set_self']
      simp [List.getElem?_eq_getElem hi]
    · exact ih _ ((List.nodup_cons.mp hnd).2) hm (by rw [List.length_set]; exact hi)

lemma outer_length (image : List PPMPixel) (w h : Nat) (ys : List Nat)
    (xs : List Nat) (res : List PPMPixel) :
    (xs.foldl (fun buf x => innerRows image w h x ys buf) res).length = res.length := by
  induction xs generalizing res with
  | nil => rfl
  | cons x xs ih => rw [List.foldl_cons, ih, innerRows_length]

lemma outer_getD_not_mem (image : List PPMPixel) (w h : Nat) (ys : List Nat)
    (xs : List Nat) (res : List PPMPixel) (i : Nat) (d : PPMPixel)
    (hni : ∀ x' ∈ xs, ∀ y' ∈ ys, i ≠ y' * w + x') :
    (xs.foldl (fun buf x => innerRows image w h x ys buf) res).getD i d = res.getD i d := by
  induction xs generalizing res with
  | nil => rfl
  | cons x xs ih =>
    rw [List.foldl_cons, ih _ (fun x' hx' => hni x' (List.mem_cons_of_mem _ hx'))]
    exact innerRows_getD_not_mem image w h x ys res i d
      (fun y' hy' => hni x (List.mem_cons_self _ _) y' hy')

lemma outer_getD_mem (image : List PPMPixel) (w h : Nat) (ys : List Nat)
    (xs : List Nat) (res : List PPMPixel) (x y : Nat) (d : PPMPixel)
    (hndx : xs.Nodup) (hmx : x ∈ xs) (hxw : ∀ x' ∈ xs, x' < w)
    (hndy : ys.Nodup) (hmy : y ∈ ys) (hi : y * w + x < res.length) :
    (xs.foldl (fun buf x => innerRows image w h x ys buf) res).getD (y * w + x) d =
      convPixel image w h x y := by
  induction xs generalizing res with
  | nil => cases hmx
  | cons x' xs ih =>
    rw [List.foldl_cons]
    rcases List.mem_cons.mp hmx with he | hm
    · subst he
      have hnotin : x ∉ xs := (List.nodup_cons.mp hndx).1
      have hdiff : ∀ x'' ∈ xs, ∀ y' ∈ ys, y * w + x ≠ y' * w + x'' := by
        intro x'' hx'' y' _ he
        have := (rowcol_inj w x x'' y y' (hxw x (List.mem_cons_self _ _))
          (hxw x'' (List.mem_cons_of_mem _ hx'')) he).1
        exact hnotin (this ▸ hx'')
      rw [outer_getD_not_mem image w h ys xs _ _ d hdiff]
      exact innerRows_getD_mem image w h x ys res y d hndy hmy
        (hxw x (List.mem_cons_self _ _)) hi
    · exact ih _ ((List.nodup_cons.mp hndx).2) hm
        (fun x'' hx'' => hxw x'' (List.mem_cons_of_mem _ hx''))
        (by rw [innerRows_length]; exact hi)

lemma workerRun_length (image : List PPMPixel) (w h start size : Nat)
    (res : List PPMPixel) :
    (workerRun image w h start size res).length = res.length :=
  outer_length image w h (List.range' start size) (List.range w) res

lemma workerRun_getD_mem (image : List PPMPixel) (w h start size : Nat)
    (res : List PPMPixel) (x y : Nat) (d : PPMPixel)
    (hx : x < w) (hy1 : start ≤ y) (hy2 : y < start + size)
    (hi : y * w + x < res.length) :
    (workerRun image w h start size res).getD (y * w + x) d =
      convPixel image w h x y := by
  refine outer_getD_mem image w h (List.range' start size) (List.range w) res x y d
    (List.nodup_range _) (List.mem_range.mpr hx) (fun x' hx' => List.mem_range.mp hx')
    (List.nodup_range' _ _) (List.mem_range'_1.mpr ⟨hy1, hy2⟩) hi

lemma workerRun_getD_not_row (image : List PPMPixel) (w h start size : Nat)
    (res : List PPMPixel) (x y : Nat) (d : PPMPixel)
    (hx : x < w) (hy : ¬(start ≤ y ∧ y < start + size)) :
    (workerRun image w h start size res).getD (y * w + x) d = res.getD (y * w + x) d := by
  refine outer_getD_not_mem image w h (List.range' start size) (List.range w) res _ d ?_
  intro x' hx' y' hy' he
  obtain ⟨hxe, hye⟩ := rowcol_inj w x x' y y' hx (List.mem_range.mp hx') he
  exact hy (hye ▸ List.mem_range'_1.mp hy')

lemma runWorkers_nil (image : List PPMPixel) (w h : Nat) (res : List PPMPixel) :
    runWorkers image w h [] res = res := rfl

lemma runWorkers_cons (image : List PPMPixel) (w h : Nat) (p : Nat × Nat)
    (ps : List (Nat × Nat)) (res : List PPMPixel) :
    runWorkers image w h (p :: ps) res =
      runWorkers image w h ps (workerRun image w h p.1 p.2 res) := rfl

lemma runWorkers_length (image : List PPMPixel) (w h : Nat) (ps : List (Nat × Nat))
    (res : List PPMPixel) : (runWorkers image w h ps res).length = res.length := by
  induction ps generalizing res with
  | nil => rfl
  | cons p ps ih => rw [runWorkers_cons, ih, workerRun_length]

lemma runWorkers_getD (image : List PPMPixel) (w h : Nat) (ps : List (Nat × Nat))
    (res : List PPMPixel) (x y : Nat) (d : PPMPixel)
    (hx : x < w) (hi : y * w + x < res.length) :
    (runWorkers image w h ps res).getD (y * w + x) d =
      if ∃ p ∈ ps, p.1 ≤ y ∧ y < p.1 + p.2 then convPixel image w h x y
      else res.getD (y * w + x) d := by
  induction ps generalizing res with
  | nil => simp [runWorkers_nil]
  | cons p ps ih =>
    rw [runWorkers_cons, ih _ (by rw [workerRun_length]; exact hi)]
    by_cases hcov : ∃ q ∈ ps, q.1 ≤ y ∧ y < q.1 + q.2
    · simp only [hcov, if_true]
      have hco : ∃ q ∈ p :: ps, q.1 ≤ y ∧ y < q.1 + q.2 := by
        obtain ⟨q, hq, hcq⟩ := hcov
        exact ⟨q, List.mem_cons_of_mem _ hq, hcq⟩
      rw [if_pos hco]
    · simp only [hcov, if_false]
      by_cases hp : p.1 ≤ y ∧ y < p.1 + p.2
      · rw [workerRun_getD_mem image w h p.1 p.2 res x y d hx hp.1 hp.2 hi]
        have hco : ∃ q ∈ p :: ps, q.1 ≤ y ∧ y < q.1 + q.2 := ⟨p, List.mem_cons_self _ _, hp⟩
        rw [if_pos hco]
      · rw [workerRun_getD_not_row image w h p.1 p.2 res x y d hx hp]
        have hco : ¬∃ q ∈ p :: ps, q.1 ≤ y ∧ y < q.1 + q.2 := by
          intro ⟨q, hq, hcq⟩
          rcases List.mem_cons.mp hq with he | hm
          · exact hp (he ▸ hcq)
          · exact hcov ⟨q, hm, hcq⟩
        rw [if_neg hco]

lemma partitionOf_mem (h N i : Nat) (hi : i < N) :
    partitionOf h N i ∈ partitionsFn h N :=
  List.mem_map.mpr ⟨i, List.mem_range.mpr hi, rfl⟩

lemma last_start_le (h N : Nat) (hN : 1 ≤ N) : (N - 1) * (h / N) ≤ h := by
  have h1 : (N - 1) * (h / N) ≤ N * (h / N) :=
    Nat.mul_le_mul_right (h / N) (by omega)
  have h2 : N * (h / N) ≤ h := by
    rw [Nat.mul_comm]; exact Nat.div_mul_le_self h N
  omega

lemma partitions_cover (hgt N y : Nat) (hN : 1 ≤ N) (hy : y < hgt) :
    ∃ p ∈ partitionsFn hgt N, p.1 ≤ y ∧ y < p.1 + p.2 := by
  by_cases hcase : (N - 1) * (hgt / N) ≤ y
  · have hmem : partitionOf hgt N (N - 1) ∈ partitionsFn hgt N :=
      partitionOf_mem hgt N (N - 1) (by omega)
    refine ⟨partitionOf hgt N (N - 1), hmem, ?_⟩
    have hpe : partitionOf hgt N (N - 1) =
        ((N - 1) * (hgt / N), hgt - (N - 1) * (hgt / N)) := by
      unfold partitionOf; rw [if_pos rfl]
    rw [hpe]
    have hle : (N - 1) * (hgt / N) ≤ hgt := last_start_le hgt N hN
    simp only
    omega
  · push_neg at hcase
    have hc1 : 1 ≤ hgt / N := by
      rcases Nat.eq_zero_or_pos (hgt / N) with h0 | h1
      · rw [h0, Nat.mul_zero] at hcase; omega
      · exact h1
    have hiN : y / (hgt / N) < N - 1 :=
      (Nat.div_lt_iff_lt_mul (by omega)).mpr hcase
    have hmem : partitionOf hgt N (y / (hgt / N)) ∈ partitionsFn hgt N :=
      partitionOf_mem hgt N (y / (hgt / N)) (by omega)
    refine ⟨partitionOf hgt N (y / (hgt / N)), hmem, ?_⟩
    have hpe : partitionOf hgt N (y / (hgt / N)) =
        (y / (hgt / N) * (hgt / N), hgt / N) := by
      unfold partitionOf; rw [if_neg (by omega : ¬ y / (hgt / N) = N - 1)]
    rw [hpe]
    refine ⟨Nat.div_mul_le_self y (hgt / N), ?_⟩
    have hdm := Nat.div_add_mod y (hgt / N)
    have hlt := Nat.mod_lt y (show 0 < hgt / N by omega)
    have hcomm : (hgt / N) * (y / (hgt / N)) = y / (hgt / N) * (hgt / N) :=
      Nat.mul_comm _ _
    omega

lemma convPixel_eq_specPixel (image : List PPMPixel) (w h x y : Nat)
    (hw : 1 ≤ w) (hh : 1 ≤ h) :
    convPixel image w h x y = specPixel image w h x y := by
  rw [convPixel, convAccum_eq_spec image w h x y hw hh, specPixel]

lemma runWorkers_eq_seq (image : List PPMPixel) (w hgt : Nat) (ps : List (Nat × Nat))
    (hw : 1 ≤ w) (hh : 1 ≤ hgt)
    (hcov : ∀ y, y < hgt → ∃ p ∈ ps, p.1 ≤ y ∧ y < p.1 + p.2) :
    runWorkers image w hgt ps (List.replicate (w * hgt) ⟨0, 0, 0⟩) =
      seqConvSpec image w hgt := by
  have hlen : (runWorkers image w hgt ps (List.replicate (w * hgt) ⟨0, 0, 0⟩)).length
      = w * hgt := by rw [runWorkers_length, List.length_replicate]
  have hlen2 : (seqConvSpec image w hgt).length = w * hgt := by
    rw [seqConvSpec, List.length_map, List.length_range]
  apply List.ext_getElem (by rw [hlen, hlen2])
  intro i h1 h2
  have hi : i < w * hgt := by rw [hlen] at h1; exact h1
  have hx : i % w < w := Nat.mod_lt _ (by omega)
  have hy : i / w < hgt := Nat.div_lt_of_lt_mul hi
  have hdecomp : i / w * w + i % w = i := by
    have h1 := Nat.div_add_mod i w
    have h2 : w * (i / w) = i / w * w := Nat.mul_comm _ _
    omega
  have hgd : (runWorkers image w hgt ps (List.replicate (w * hgt) ⟨0, 0, 0⟩)).getD i ⟨0, 0, 0⟩
      = (runWorkers image w hgt ps (List.replicate (w * hgt) ⟨0, 0, 0⟩))[i] := by
    rw [List.getD_eq_getElem?_getD, List.getElem?_eq_getElem h1]
    rfl
  rw [← hgd]
  have hcv := hcov (i / w) hy
  have := runWorkers_getD image w hgt ps (List.replicate (w * hgt) ⟨0, 0, 0⟩)
    (i % w) (i / w) ⟨0, 0, 0⟩ hx (by rw [List.length_replicate]; omega)
  rw [hdecomp] at this
  rw [this, if_pos hcv, convPixel_eq_specPixel image w hgt _ _ hw hh]
  simp only [seqConvSpec, List.getElem_map, List.getElem_range]

lemma applyFiltersWith_eq_seq (N : Nat) (image : List PPMPixel) (w hgt : Nat)
    (hw : 1 ≤ w) (hh : 1 ≤ hgt) (hN : 1 ≤ N) :
    applyFiltersWith N image w hgt = seqConvSpec image w hgt :=
  runWorkers_eq_seq image w hgt (partitionsFn hgt N) hw hh
    (fun y hy => partitions_cover hgt N y hN hy)

lemma partitionOf_fst (h N i : Nat) : (partitionOf h N i).1 = i * (h / N) := rfl

lemma partitionOf_snd_last (h N : Nat) : (partitionOf h N (N - 1)).2 = h - (N - 1) * (h / N) := by
  unfold partitionOf; rw [if_pos rfl]

lemma partitionOf_snd_ne (h N i : Nat) (hi : i ≠ N - 1) : (partitionOf h N i).2 = h / N := by
  unfold partitionOf; rw [if_neg hi]

lemma specChannel_uniform (w h x y n : Nat) (p : PPMPixel) (ch : PPMPixel → Nat)
    (hw : 1 ≤ w) (hh : 1 ≤ h) (hn : n = w * h) :
    specChannel (List.replicate n p) w h x y ch = 0 := by
  have hget : ∀ dy dx : Int,
      (List.replicate n p).getD
        ((((y : Int) + dy) % (h : Int)).toNat * w +
          (((x : Int) + dx) % (w : Int)).toNat) ⟨0, 0, 0⟩ = p := by
    intro dy dx
    have h1 : 0 ≤ ((y : Int) + dy) % (h : Int) := Int.emod_nonneg _ (by omega)
    have h2 : ((y : Int) + dy) % (h : Int) < h := Int.emod_lt_of_pos _ (by omega)
    have h3 : 0 ≤ ((x : Int) + dx) % (w : Int) := Int.emod_nonneg _ (by omega)
    have h4 : ((x : Int) + dx) % (w : Int) < w := Int.emod_lt_of_pos _ (by omega)
    have h5 : (((y : Int) + dy) % (h : Int)).toNat < h := by omega
    have h6 : (((x : Int) + dx) % (w : Int)).toNat < w := by omega
    have h7 : (((y : Int) + dy) % (h : Int)).toNat * w +
        (((x : Int) + dx) % (w : Int)).toNat <
        ((((y : Int) + dy) % (h : Int)).toNat + 1) * w := by
      rw [Nat.succ_mul]; omega
    have h8 : ((((y : Int) + dy) % (h : Int)).toNat + 1) * w ≤ h * w :=
      Nat.mul_le_mul_right w (by omega)
    have h9 : h * w = w * h := Nat.mul_comm _ _
    have hidx : (((y : Int) + dy) % (h : Int)).toNat * w +
        (((x : Int) + dx) % (w : Int)).toNat < (List.replicate n p).length := by
      rw [List.length_replicate]; omega
    rw [List.getD_eq_getElem?_getD, List.getElem?_eq_getElem hidx]
    simp [List.getElem_replicate]
  simp only [specChannel, List.map_cons, List.map_nil, List.sum_cons, List.sum_nil]
  rw [hget (-1) (-1), hget (-1) 0, hget (-1) 1, hget 0 (-1), hget 0 0, hget 0 1,
    hget 1 (-1), hget 1 0, hget 1 1]
  simp only [show ((-1 : Int) + 1).toNat = 0 from rfl, show ((0 : Int) + 1).toNat = 1 from rfl,
    show ((1 : Int) + 1).toNat = 2 from rfl,
    show (kernelSpec.getD 0 []).getD 0 0 = -1 from rfl,
    show (kernelSpec.getD 0 []).getD 1 0 = -1 from rfl,
    show (kernelSpec.getD 0 []).getD 2 0 = -1 from rfl,
    show (kernelSpec.getD 1 []).getD 0 0 = -1 from rfl,
    show (kernelSpec.getD 1 []).getD 1 0 = 8 from rfl,
    show (kernelSpec.getD 1 []).getD 2 0 = -1 from rfl,
    show (kernelSpec.getD 2 []).getD 0 0 = -1 from rfl,
    show (kernelSpec.getD 2 []).getD 1 0 = -1 from rfl,
    show (kernelSpec.getD 2 []).getD 2 0 = -1 from rfl]
  ring

lemma specPixel_uniform (w h x y n : Nat) (p : PPMPixel)
    (hw : 1 ≤ w) (hh : 1 ≤ h) (hn : n = w * h) :
    specPixel (List.replicate n p) w h x y = ⟨0, 0, 0⟩ := by
  unfold specPixel
  rw [specChannel_uniform w h x y n p _ hw hh hn,
    specChannel_uniform w h x y n p _ hw hh hn,
    specChannel_uniform w h x y n p _ hw hh hn]
  rfl


/-! Helper lemmas about the codec. -/

-- digit facts
lemma natDigits_bounds (n : Nat) : ∀ c ∈ natDigits n, 48 ≤ c ∧ c ≤ 57 := by
  intro c hc
  unfold natDigits at hc
  by_cases h0 : n = 0
  · rw [if_pos h0] at hc
    simp at hc
    omega
  · rw [if_neg h0] at hc
    obtain ⟨d, hd, he⟩ := List.mem_map.mp hc
    have := Nat.digits_lt_base (by norm_num) (List.mem_reverse.mp hd)
    omega

lemma natDigits_ne_nil (n : Nat) : natDigits n ≠ [] := by
  unfold natDigits
  by_cases h0 : n = 0
  · rw [if_pos h0]; simp
  · rw [if_neg h0]
    simp only [ne_eq, List.map_eq_nil_iff, List.reverse_eq_nil_iff]
    exact Nat.digits_ne_nil_iff_ne_zero.mpr h0

lemma foldr_ofDigits (ds : List Nat) :
    Nat.ofDigits 10 ds = ds.foldr (fun d a => a * 10 + d) 0 := by
  induction ds with
  | nil => simp [Nat.ofDigits_nil]
  | cons d ds ih => rw [Nat.ofDigits_cons, List.foldr_cons, ih]; ring

lemma parseNatAcc_append (ds rest : List Nat) (acc : Nat)
    (hd : ∀ d ∈ ds, 48 ≤ d ∧ d ≤ 57) (hr : isDigit (rest.headD 0) = false) :
    parseNatAcc (ds ++ rest) acc =
      (ds.foldl (fun a d => a * 10 + (d - 48)) acc, rest) := by
  induction ds generalizing acc with
  | nil =>
    simp only [List.nil_append, List.foldl_nil]
    cases rest with
    | nil => rfl
    | cons c cs =>
      simp only [List.headD_cons] at hr
      unfold parseNatAcc
      rw [hr]
      simp
  | cons d ds ih =>
    have hdd := hd d (List.mem_cons_self _ _)
    have hdig : isDigit d = true := by
      simp only [isDigit, Bool.and_eq_true, decide_eq_true_eq]
      exact hdd
    simp only [List.cons_append, List.foldl_cons]
    unfold parseNatAcc
    rw [hdig]
    simp only [if_true]
    exact ih _ (fun d' hd' => hd d' (List.mem_cons_of_mem _ hd'))

lemma foldl_digits_val (n : Nat) :
    (natDigits n).foldl (fun a d => a * 10 + (d - 48)) 0 = n := by
  unfold natDigits
  by_cases h0 : n = 0
  · rw [if_pos h0]; simp [h0]
  · rw [if_neg h0]
    have hsub : ∀ (ds : List Nat) (a : Nat),
        (ds.map (fun d => d + 48)).foldl (fun a d => a * 10 + (d - 48)) a =
          ds.foldl (fun a d => a * 10 + d) a := by
      intro ds
      induction ds with
      | nil => intro a; rfl
      | cons d ds ih =>
        intro a
        simp only [List.map_cons, List.foldl_cons]
        have he : d + 48 - 48 = d := by omega
        rw [he, ih]
    rw [hsub]
    rw [List.foldl_reverse]
    have : (Nat.digits 10 n).foldr (fun x y => y * 10 + x) 0 = Nat.ofDigits 10 (Nat.digits 10 n) := by
      rw [foldr_ofDigits]
    rw [this, Nat.ofDigits_digits]

-- value of parsing natDigits
lemma parseNatAcc_natDigits (n : Nat) (rest : List Nat)
    (hr : isDigit (rest.headD 0) = false) :
    parseNatAcc (natDigits n ++ rest) 0 = (n, rest) := by
  rw [parseNatAcc_append (natDigits n) rest 0 (natDigits_bounds n) hr, foldl_digits_val]

lemma isSpace_of_digit (c : Nat) (hc : isDigit c = true) : isSpace c = false := by
  simp only [isDigit, Bool.and_eq_true, decide_eq_true_eq] at hc
  simp only [isSpace, Bool.or_eq_false_iff, beq_eq_false_iff_ne, ne_eq]
  omega

lemma fgetsAux_cons_ne (n c : Nat) (rest : List Nat) (hc : ¬ c = 10) :
    fgetsAux (n + 1) (c :: rest) =
      ((c :: (fgetsAux n rest).1, (fgetsAux n rest).2)) := by
  conv_lhs => unfold fgetsAux
  rw [if_neg hc]

lemma fgetsAux_cons_nl (n : Nat) (rest : List Nat) :
    fgetsAux (n + 1) (10 :: rest) = ([10], rest) := by
  conv_lhs => unfold fgetsAux
  rw [if_pos rfl]

lemma fgets_P6 (t : List Nat) : fgets63 (80 :: 54 :: 10 :: t) = some ([80, 54, 10], t) := by
  show some (fgetsAux 63 (80 :: 54 :: 10 :: t)) = some ([80, 54, 10], t)
  rw [show (63 : Nat) = 62 + 1 from rfl, fgetsAux_cons_ne 62 80 _ (by omega),
    show (62 : Nat) = 61 + 1 from rfl, fgetsAux_cons_ne 61 54 _ (by omega),
    show (61 : Nat) = 60 + 1 from rfl, fgetsAux_cons_nl 60 t]

lemma skipComments_cons_ne (c : Nat) (rest : List Nat) (hc : ¬ c = 35) :
    skipComments (c :: rest) = some (c :: rest) := by
  unfold skipComments skipCommentsAux
  rw [if_neg hc]

lemma parseLong_space_cons (c : Nat) (s : List Nat) (hc : isSpace c = true) :
    parseLong (c :: s) = parseLong s := by
  unfold parseLong
  rw [List.dropWhile_cons_of_pos hc]

lemma parseLongAux_cons (c : Nat) (rest : List Nat) :
    parseLongAux (c :: rest) =
      (if c = 45 then
        if isDigit (rest.headD 0) then
          some (-((parseNatAcc rest 0).1 : Int), (parseNatAcc rest 0).2)
        else none
      else if c = 43 then
        if isDigit (rest.headD 0) then
          some (((parseNatAcc rest 0).1 : Int), (parseNatAcc rest 0).2)
        else none
      else if isDigit c then
        some (((parseNatAcc (c :: rest) 0).1 : Int), (parseNatAcc (c :: rest) 0).2)
      else none) := by
  conv_lhs => unfold parseLongAux

lemma parseLong_digitList (ds rest : List Nat) (d0 : Nat) (ds' : List Nat)
    (hds : ds = d0 :: ds') (hd : ∀ d ∈ ds, 48 ≤ d ∧ d ≤ 57)
    (hr : isDigit (rest.headD 0) = false) :
    parseLong (ds ++ rest) =
      some (((ds.foldl (fun a d => a * 10 + (d - 48)) 0 : Nat) : Int), rest) := by
  subst hds
  have hd0 := hd d0 (List.mem_cons_self _ _)
  have hdig : isDigit d0 = true := by
    simp only [isDigit, Bool.and_eq_true, decide_eq_true_eq]; exact hd0
  unfold parseLong
  rw [List.cons_append, List.dropWhile_cons_of_neg (by rw [isSpace_of_digit d0 hdig]; simp),
    parseLongAux_cons]
  rw [if_neg (by omega : ¬ d0 = 45), if_neg (by omega : ¬ d0 = 43), if_pos hdig]
  rw [show d0 :: (ds' ++ rest) = (d0 :: ds') ++ rest from rfl]
  rw [parseNatAcc_append (d0 :: ds') rest 0 hd hr]

lemma parseLong_natDigits (n : Nat) (rest : List Nat)
    (hr : isDigit (rest.headD 0) = false) :
    parseLong (natDigits n ++ rest) = some ((n : Int), rest) := by
  obtain ⟨d0, ds', hds⟩ : ∃ d0 ds', natDigits n = d0 :: ds' := by
    cases he : natDigits n with
    | nil => exact absurd he (natDigits_ne_nil n)
    | cons a l => exact ⟨a, l, rfl⟩
  rw [parseLong_digitList (natDigits n) rest d0 ds' hds (natDigits_bounds n) hr]
  rw [foldl_digits_val]

lemma toULong_small (n : Nat) (h : n < 2 ^ 64) : toULong (n : Int) = n := by
  unfold toULong
  rw [Int.emod_eq_of_lt (by omega) (by exact_mod_cast h)]
  exact Int.toNat_natCast n

lemma skipToNl_nl (rest : List Nat) : skipToNl (10 :: rest) = some rest := by
  unfold skipToNl
  rw [if_pos rfl]

lemma read_header (w h : Nat) (hw : 1 ≤ w) (hh : 1 ≤ h)
    (hw64 : w < 2 ^ 63) (hh64 : h < 2 ^ 63) (hwh : w * h < 2 ^ 64) (rest : List Nat) :
    read_image_bytes (write_header w h ++ rest) = .ok w h (readPixels (w * h) rest) := by
  obtain ⟨d0, ds', hds⟩ : ∃ d0 ds', natDigits w = d0 :: ds' := by
    cases he : natDigits w with
    | nil => exact absurd he (natDigits_ne_nil w)
    | cons a l => exact ⟨a, l, rfl⟩
  have hshape : write_header w h ++ rest =
      80 :: 54 :: 10 :: (natDigits w ++ (32 :: (natDigits h ++
        (10 :: (50 :: 53 :: 53 :: (10 :: rest)))))) := by
    simp [write_header, List.append_assoc]
  rw [hshape]
  have hfg := fgets_P6 (natDigits w ++ (32 :: (natDigits h ++
    (10 :: (50 :: 53 :: 53 :: (10 :: rest))))))
  have hmk : markerOk [80, 54, 10] = true := rfl
  have hsc : skipComments (natDigits w ++ (32 :: (natDigits h ++
      (10 :: (50 :: 53 :: 53 :: (10 :: rest)))))) =
      some (natDigits w ++ (32 :: (natDigits h ++
        (10 :: (50 :: 53 :: 53 :: (10 :: rest)))))) := by
    rw [hds, List.cons_append]
    refine skipComments_cons_ne d0 _ ?_
    have := natDigits_bounds w d0 (by rw [hds]; exact List.mem_cons_self _ _)
    omega
  have hp1 : parseLong (natDigits w ++ (32 :: (natDigits h ++
      (10 :: (50 :: 53 :: 53 :: (10 :: rest)))))) =
      some ((w : Int), 32 :: (natDigits h ++
        (10 :: (50 :: 53 :: 53 :: (10 :: rest))))) :=
    parseLong_natDigits w _ (by rfl)
  have hp2 : parseLong (32 :: (natDigits h ++
      (10 :: (50 :: 53 :: 53 :: (10 :: rest))))) =
      some ((h : Int), 10 :: (50 :: 53 :: 53 :: (10 :: rest))) := by
    rw [parseLong_space_cons 32 _ (by decide)]
    exact parseLong_natDigits h _ (by rfl)
  have hp3 : parseLong (10 :: (50 :: 53 :: 53 :: (10 :: rest))) =
      some ((255 : Int), 10 :: rest) := by
    rw [parseLong_space_cons 10 _ (by decide)]
    have h3 := parseLong_digitList [50, 53, 53] (10 :: rest) 50 [53, 53] rfl
      (by decide) (by rfl)
    simpa using h3
  have hsn := skipToNl_nl rest
  simp only [read_image_bytes, hfg, hmk, hsc, hp1, hp2, hp3, hsn, if_true]
  rw [if_pos (by norm_num [RGB_COMPONENT_COLOR])]
  rw [toULong_small w (by omega), toULong_small h (by omega), Nat.mod_eq_of_lt hwh]

lemma pixelBytes_cons (p : PPMPixel) (ps : List PPMPixel) :
    pixelBytes (p :: ps) = p.r :: p.g :: p.b :: pixelBytes ps := rfl

lemma readPixels_pixelBytes (ps : List PPMPixel) :
    readPixels ps.length (pixelBytes ps) = ps := by
  induction ps with
  | nil => rfl
  | cons p ps ih =>
    rw [List.length_cons, pixelBytes_cons]
    show readPixels (ps.length + 1) (p.r :: p.g :: p.b :: pixelBytes ps) = p :: ps
    conv_lhs => unfold readPixels
    rw [ih]

lemma readPixels_short (n : Nat) (bytes : List Nat) (hshort : bytes.length < 3 * n) :
    (readPixels n bytes).length = bytes.length / 3 := by
  induction n generalizing bytes with
  | zero => omega
  | succ n ih =>
    match bytes with
    | [] => rfl
    | [a] => simp [readPixels]
    | [a, b] => simp [readPixels]
    | a :: b :: c :: rest =>
      show (readPixels (n + 1) (a :: b :: c :: rest)).length = (rest.length + 3) / 3
      conv_lhs => unfold readPixels
      rw [List.length_cons, ih rest (by simp at hshort; omega)]
      omega

lemma readPixels_getD (n : Nat) (bytes : List Nat) (i : Nat)
    (hi : i < (readPixels n bytes).length) :
    (readPixels n bytes).getD i ⟨0, 0, 0⟩ =
      ⟨bytes.getD (3 * i) 0, bytes.getD (3 * i + 1) 0, bytes.getD (3 * i + 2) 0⟩ := by
  induction n generalizing bytes i with
  | zero => simp [readPixels] at hi
  | succ n ih =>
    match bytes with
    | [] => simp [readPixels] at hi
    | [a] => simp [readPixels] at hi
    | [a, b] => simp [readPixels] at hi
    | a :: b :: c :: rest =>
      rw [show readPixels (n + 1) (a :: b :: c :: rest) =
        ⟨a, b, c⟩ :: readPixels n rest from rfl] at hi ⊢
      match i with
      | 0 => rfl
      | i + 1 =>
        rw [List.getD_cons_succ, ih rest i (by simpa using hi)]
        have f1 : (a :: b :: c :: rest).getD (3 * (i + 1)) 0 = rest.getD (3 * i) 0 := by
          rw [show 3 * (i + 1) = 3 * i + 1 + 1 + 1 from by omega, List.getD_cons_succ,
            List.getD_cons_succ, List.getD_cons_succ]
        have f2 : (a :: b :: c :: rest).getD (3 * (i + 1) + 1) 0 = rest.getD (3 * i + 1) 0 := by
          rw [show 3 * (i + 1) + 1 = 3 * i + 1 + 1 + 1 + 1 from by omega, List.getD_cons_succ,
            List.getD_cons_succ, List.getD_cons_succ]
        have f3 : (a :: b :: c :: rest).getD (3 * (i + 1) + 2) 0 = rest.getD (3 * i + 2) 0 := by
          rw [show 3 * (i + 1) + 2 = 3 * i + 2 + 1 + 1 + 1 from by omega, List.getD_cons_succ,
            List.getD_cons_succ, List.getD_cons_succ]
        rw [f1, f2, f3]

lemma fgetsAux_suffix : ∀ (n : Nat) (s : List Nat), (fgetsAux n s).2 <:+ s := by
  intro n
  induction n with
  | zero => intro s; exact List.suffix_refl s
  | succ n ih =>
    intro s
    match s with
    | [] => exact List.nil_suffix
    | c :: rest =>
      rw [fgetsAux]
      by_cases hc : c = 10
      · rw [if_pos hc]
        exact List.suffix_cons c rest
      · rw [if_neg hc]
        exact (ih rest).trans (List.suffix_cons c rest)

lemma fgets63_suffix (s line s1 : List Nat) (hfg : fgets63 s = some (line, s1)) :
    s1 <:+ s := by
  match s with
  | [] => cases hfg
  | c :: rest =>
    have : (fgetsAux 63 (c :: rest)).2 = s1 := by
      unfold fgets63 at hfg
      rw [Option.some_inj] at hfg
      rw [hfg]
    rw [← this]
    exact fgetsAux_suffix 63 (c :: rest)

lemma skipToNl_suffix : ∀ (s t : List Nat), skipToNl s = some t → t <:+ s := by
  intro s
  induction s with
  | nil => intro t h; cases h
  | cons c rest ih =>
    intro t h
    rw [skipToNl] at h
    by_cases hc : c = 10
    · rw [if_pos hc, Option.some_inj] at h
      rw [← h]
      exact List.suffix_cons c rest
    · rw [if_neg hc] at h
      exact (ih t h).trans (List.suffix_cons c rest)

lemma skipToNl_none_iff (s : List Nat) : skipToNl s = none ↔ ∀ c ∈ s, c ≠ 10 := by
  induction s with
  | nil => simp [skipToNl]
  | cons c rest ih =>
    rw [skipToNl]
    by_cases hc : c = 10
    · rw [if_pos hc]
      simp [hc]
    · rw [if_neg hc]
      simp [hc, ih]

lemma skipCommentsAux_suffix : ∀ (s : List Nat) (b : Bool) (t : List Nat),
    skipCommentsAux b s = some t → t <:+ s := by
  intro s
  induction s with
  | nil =>
    intro b t h
    cases b with
    | false => rw [skipCommentsAux, Option.some_inj] at h; rw [← h]
    | true => cases h
  | cons c rest ih =>
    intro b t h
    cases b with
    | false =>
      rw [skipCommentsAux] at h
      by_cases hc : c = 35
      · rw [if_pos hc] at h
        exact (ih true t h).trans (List.suffix_cons c rest)
      · rw [if_neg hc, Option.some_inj] at h
        rw [← h]
    | true =>
      rw [skipCommentsAux] at h
      by_cases hc : c = 10
      · rw [if_pos hc] at h
        exact (ih false t h).trans (List.suffix_cons c rest)
      · rw [if_neg hc] at h
        exact (ih true t h).trans (List.suffix_cons c rest)

lemma parseNatAcc_suffix : ∀ (s : List Nat) (acc : Nat), (parseNatAcc s acc).2 <:+ s := by
  intro s
  induction s with
  | nil => intro acc; exact List.suffix_refl _
  | cons c rest ih =>
    intro acc
    rw [parseNatAcc]
    by_cases hc : isDigit c = true
    · rw [if_pos hc]
      exact (ih _).trans (List.suffix_cons c rest)
    · rw [if_neg hc]

lemma parseLong_suffix (s : List Nat) (v : Int) (rest : List Nat)
    (h : parseLong s = some (v, rest)) : rest <:+ s := by
  unfold parseLong at h
  have hdw : s.dropWhile isSpace <:+ s := List.dropWhile_suffix isSpace
  match hm : s.dropWhile isSpace with
  | [] => rw [hm] at h; cases h
  | c :: r =>
    rw [hm] at h hdw
    rw [parseLongAux_cons] at h
    by_cases h45 : c = 45
    · rw [if_pos h45] at h
      by_cases hdig : isDigit (r.headD 0) = true
      · rw [if_pos hdig, Option.some_inj] at h
        have h2 : (parseNatAcc r 0).2 = rest := congrArg Prod.snd h
        rw [← h2]
        exact ((parseNatAcc_suffix r 0).trans (List.suffix_cons c r)).trans hdw
      · rw [if_neg hdig] at h; cases h
    · rw [if_neg h45] at h
      by_cases h43 : c = 43
      · rw [if_pos h43] at h
        by_cases hdig : isDigit (r.headD 0) = true
        · rw [if_pos hdig, Option.some_inj] at h
          have h2 : (parseNatAcc r 0).2 = rest := congrArg Prod.snd h
          rw [← h2]
          exact ((parseNatAcc_suffix r 0).trans (List.suffix_cons c r)).trans hdw
        · rw [if_neg hdig] at h; cases h
      · rw [if_neg h43] at h
        by_cases hdig : isDigit c = true
        · rw [if_pos hdig, Option.some_inj] at h
          have h2 : (parseNatAcc (c :: r) 0).2 = rest := congrArg Prod.snd h
          rw [← h2]
          exact (parseNatAcc_suffix (c :: r) 0).trans hdw
        · rw [if_neg hdig] at h; cases h

lemma suffix_last (s t : List Nat) (hs : t <:+ s) (hn : t ≠ [])
    (h10 : s.getLast? = some 10) : t.getLast? = some 10 := by
  obtain ⟨u, hu⟩ := hs
  rw [← hu, List.getLast?_append] at h10
  rw [List.getLast?_eq_getLast t hn] at h10 ⊢
  simpa using h10

lemma mem_of_getLast_ten (s : List Nat) (h10 : s.getLast? = some 10) : 10 ∈ s := by
  have hne : s ≠ [] := by
    intro he
    rw [he] at h10
    cases h10
  rw [List.getLast?_eq_getLast s hne, Option.some_inj] at h10
  rw [← h10]
  exact List.getLast_mem hne

lemma skipToNl_total (s : List Nat) (hne : s ≠ []) (h10 : s.getLast? = some 10) :
    ∃ t, skipToNl s = some t := by
  cases hm : skipToNl s with
  | none =>
    exact absurd rfl ((skipToNl_none_iff s).mp hm 10 (mem_of_getLast_ten s h10))
  | some t => exact ⟨t, rfl⟩

lemma skipCommentsAux_total : ∀ (s : List Nat) (b : Bool),
    (b = true → s ≠ []) → (s = [] ∨ s.getLast? = some 10) →
    ∃ t, skipCommentsAux b s = some t := by
  intro s
  induction s with
  | nil =>
    intro b hb _
    cases b with
    | false => exact ⟨[], rfl⟩
    | true => exact absurd rfl (hb rfl)
  | cons c rest ih =>
    intro b _ hl
    have h10 : (c :: rest).getLast? = some 10 := by
      rcases hl with he | h10
      · cases he
      · exact h10
    cases b with
    | false =>
      rw [skipCommentsAux]
      by_cases hc : c = 35
      · rw [if_pos hc]
        have hrne : rest ≠ [] := by
          intro he
          rw [he] at h10
          simp at h10
          omega
        refine ih true (fun _ => hrne) (Or.inr ?_)
        exact suffix_last (c :: rest) rest (List.suffix_cons c rest) hrne h10
      · rw [if_neg hc]
        exact ⟨c :: rest, rfl⟩
    | true =>
      rw [skipCommentsAux]
      by_cases hc : c = 10
      · rw [if_pos hc]
        rcases List.eq_nil_or_concat rest with he | _
        · subst he
          exact ih false (by simp) (Or.inl rfl)
        · refine ih false (by simp) ?_
          by_cases hrne : rest = []
          · exact Or.inl hrne
          · exact Or.inr (suffix_last (c :: rest) rest (List.suffix_cons c rest) hrne h10)
      · rw [if_neg hc]
        have hrne : rest ≠ [] := by
          intro he
          rw [he] at h10
          simp at h10
          omega
        refine ih true (fun _ => hrne) (Or.inr ?_)
        exact suffix_last (c :: rest) rest (List.suffix_cons c rest) hrne h10

lemma parseNatAcc_all_digits : ∀ (s : List Nat) (acc v : Nat),
    parseNatAcc s acc = (v, []) → ∀ c ∈ s, isDigit c = true := by
  intro s
  induction s with
  | nil => intro acc v _ c hc; cases hc
  | cons c rest ih =>
    intro acc v h d hd
    rw [parseNatAcc] at h
    by_cases hc : isDigit c = true
    · rw [if_pos hc] at h
      rcases List.mem_cons.mp hd with he | hm
      · rw [he]; exact hc
      · exact ih _ _ h d hm
    · rw [if_neg hc] at h
      cases h

lemma parseLong_rest_nonempty (s : List Nat) (v : Int)
    (h : parseLong s = some (v, [])) (h10 : s.getLast? = some 10) : False := by
  unfold parseLong at h
  have hdw : s.dropWhile isSpace <:+ s := List.dropWhile_suffix isSpace
  match hm : s.dropWhile isSpace with
  | [] => rw [hm] at h; cases h
  | c :: r =>
    rw [hm] at h hdw
    rw [parseLongAux_cons] at h
    have hend : (c :: r).getLast? = some 10 :=
      suffix_last s (c :: r) hdw (by simp) h10
    have hsub : ∀ (l : List Nat), l <:+ c :: r → (∀ d ∈ l, isDigit d = true) →
        l ≠ [] → False := by
      intro l hsuf hdig hne
      have hl10 : l.getLast? = some 10 :=
        suffix_last (c :: r) l hsuf hne hend
      have := hdig 10 (mem_of_getLast_ten l hl10)
      simp [isDigit] at this
    by_cases h45 : c = 45
    · rw [if_pos h45] at h
      by_cases hdig : isDigit (r.headD 0) = true
      · rw [if_pos hdig, Option.some_inj] at h
        have h2 : (parseNatAcc r 0).2 = [] := congrArg Prod.snd h
        have hrne : r ≠ [] := by
          intro he
          rw [he] at hdig
          simp [isDigit] at hdig
        have hall := parseNatAcc_all_digits r 0 (parseNatAcc r 0).1
          (by rw [← h2]) 
        exact hsub r (List.suffix_cons c r) hall hrne
      · rw [if_neg hdig] at h; cases h
    · rw [if_neg h45] at h
      by_cases h43 : c = 43
      · rw [if_pos h43] at h
        by_cases hdig : isDigit (r.headD 0) = true
        · rw [if_pos hdig, Option.some_inj] at h
          have h2 : (parseNatAcc r 0).2 = [] := congrArg Prod.snd h
          have hrne : r ≠ [] := by
            intro he
            rw [he] at hdig
            simp [isDigit] at hdig
          have hall := parseNatAcc_all_digits r 0 (parseNatAcc r 0).1
            (by rw [← h2])
          exact hsub r (List.suffix_cons c r) hall hrne
        · rw [if_neg hdig] at h; cases h
      · rw [if_neg h43] at h
        by_cases hdig : isDigit c = true
        · rw [if_pos hdig, Option.some_inj] at h
          have h2 : (parseNatAcc (c :: r) 0).2 = [] := congrArg Prod.snd h
          have hall := parseNatAcc_all_digits (c :: r) 0 (parseNatAcc (c :: r) 0).1
            (by rw [← h2])
          exact hsub (c :: r) (List.suffix_refl _) hall (by simp)
        · rw [if_neg hdig] at h; cases h

lemma parseLong_nil : parseLong [] = none := rfl

lemma fgets_cons_ne (c : Nat) (rest : List Nat) (hc : ¬ c = 10) :
    fgets63 (c :: rest) = some (c :: (fgetsAux 62 rest).1, (fgetsAux 62 rest).2) := by
  show some (fgetsAux 63 (c :: rest)) = _
  rw [show (63 : Nat) = 62 + 1 from rfl, fgetsAux_cons_ne 62 c rest hc]

lemma fgets_cons_nl (rest : List Nat) : fgets63 (10 :: rest) = some ([10], rest) := by
  show some (fgetsAux 63 (10 :: rest)) = _
  rw [show (63 : Nat) = 62 + 1 from rfl, fgetsAux_cons_nl 62 rest]

lemma fgets_P6_any (t : List Nat) :
    fgets63 (80 :: 54 :: t) =
      some (80 :: 54 :: (fgetsAux 61 t).1, (fgetsAux 61 t).2) := by
  rw [fgets_cons_ne 80 (54 :: t) (by omega),
    show (62 : Nat) = 61 + 1 from rfl, fgetsAux_cons_ne 61 54 t (by omega)]

lemma no_formatError_of_marker (s line s1 : List Nat)
    (hfg : fgets63 s = some (line, s1)) (hmk : markerOk line = true) :
    read_image_bytes s ≠ .err .formatError := by
  unfold read_image_bytes
  rw [hfg]
  simp only [hmk, if_true]
  cases hsc : skipComments s1 with
  | none => simp [hsc]
  | some s2 =>
    simp only [hsc]
    cases hp1 : parseLong s2 with
    | none => simp [hp1]
    | some pr1 =>
      obtain ⟨wv, s3⟩ := pr1
      simp only [hp1]
      cases hp2 : parseLong s3 with
      | none => simp [hp2]
      | some pr2 =>
        obtain ⟨hv, s4⟩ := pr2
        simp only [hp2]
        cases hp3 : parseLong s4 with
        | none => simp [hp3]
        | some pr3 =>
          obtain ⟨rv, s5⟩ := pr3
          simp only [hp3]
          by_cases hrv : rv = (RGB_COMPONENT_COLOR : Int)
          · simp only [if_pos hrv]
            cases hsn : skipToNl s5 with
            | none => simp [hsn]
            | some s6 => simp [hsn]
          · simp [hrv]

lemma formatError_of_marker_false (s line s1 : List Nat)
    (hfg : fgets63 s = some (line, s1)) (hmk : markerOk line = false) :
    read_image_bytes s = .err .formatError := by
  unfold read_image_bytes
  rw [hfg]
  simp [hmk]

lemma batchRun_cons (i : Nat) (f : Option (List Nat)) (fs : List (Option (List Nat))) :
    batchRun i (f :: fs) = manage_image_file f i :: batchRun (i + 1) fs := rfl

lemma batchRun_getD (fs : List (Option (List Nat))) : ∀ (i0 k : Nat),
    (batchRun i0 fs).getD k TaskOutcome.hang =
      if k < fs.length then manage_image_file (fs.getD k none) (i0 + k)
      else TaskOutcome.hang := by
  induction fs with
  | nil => intro i0 k; simp [batchRun]
  | cons f fs ih =>
    intro i0 k
    match k with
    | 0 => simp [batchRun_cons, List.getD_cons_zero]
    | k + 1 =>
      rw [batchRun_cons, List.getD_cons_succ, ih (i0 + 1) k]
      have he : i0 + 1 + k = i0 + (k + 1) := by omega
      rw [he]
      simp [Nat.succ_lt_succ_iff]

lemma batchRun_mem (fs : List (Option (List Nat))) : ∀ (i0 : Nat) (o : TaskOutcome),
    o ∈ batchRun i0 fs → ∃ k, k < fs.length ∧ o = manage_image_file (fs.getD k none) (i0 + k) := by
  induction fs with
  | nil => intro i0 o ho; cases ho
  | cons f fs ih =>
    intro i0 o ho
    rw [batchRun_cons] at ho
    rcases List.mem_cons.mp ho with he | hm
    · exact ⟨0, by simp, by simpa using he⟩
    · obtain ⟨k, hk, he⟩ := ih (i0 + 1) o hm
      exact ⟨k + 1, by simpa using hk, by rw [List.getD_cons_succ, he]; congr 1; omega⟩

lemma getD_set_ne_opt (fs : List (Option (List Nat))) (j k : Nat) (g : Option (List Nat))
    (hk : k ≠ j) : (fs.set j g).getD k none = fs.getD k none := by
  rw [List.getD_eq_getElem?_getD, List.getD_eq_getElem?_getD,
    List.getElem?_set_ne (fun he => hk he.symm)]


/-! The claims. -/

/-- C1: for every source image with positive width W and height H, every
column x in [0,W), every row y in a worker's assigned range and each
channel, the convolution worker stores into result[y*W+x] the 3x3
Laplacian sum over the toroidally wrapped neighbourhood, clamped to
[0,255] (specPixel is the spec formula with mathematical mod). -/
theorem C1_worker_stores_clamped_wrapped_convolution (image res : List PPMPixel) (w h start size x y : Nat)
    (hw : 1 ≤ w) (hh : 1 ≤ h) (hres : res.length = w * h) (hss : start + size ≤ h)
    (hx : x < w) (hy1 : start ≤ y) (hy2 : y < start + size) :
    (workerRun image w h start size res).getD (y * w + x) ⟨0, 0, 0⟩ =
      specPixel image w h x y := by
  have hyh : y < h := by omega
  have hb : y * w + x < res.length := by
    have h1 : y * w + x < (y + 1) * w := by rw [Nat.succ_mul]; omega
    have h2 : (y + 1) * w ≤ h * w := Nat.mul_le_mul_right w (by omega)
    have h3 : h * w = w * h := Nat.mul_comm _ _
    omega
  rw [workerRun_getD_mem image w h start size res x y ⟨0, 0, 0⟩ hx hy1 hy2 hb]
  exact convPixel_eq_specPixel image w h x y hw hh


/-- Witness for C1 at a concrete 2x2 image. -/
theorem C1_worker_stores_clamped_wrapped_convolution_witness : (workerRun [⟨255, 0, 0⟩, ⟨0, 255, 0⟩, ⟨0, 0, 255⟩, ⟨7, 8, 9⟩] 2 2 0 2
      (List.replicate 4 ⟨1, 1, 1⟩)).getD (0 * 2 + 1) ⟨0, 0, 0⟩ =
      specPixel [⟨255, 0, 0⟩, ⟨0, 255, 0⟩, ⟨0, 0, 255⟩, ⟨7, 8, 9⟩] 2 2 1 0 :=
  C1_worker_stores_clamped_wrapped_convolution [⟨255, 0, 0⟩, ⟨0, 255, 0⟩, ⟨0, 0, 255⟩, ⟨7, 8, 9⟩] (List.replicate 4 ⟨1, 1, 1⟩)
    2 2 0 2 1 0 (by decide) (by decide) (by decide) (by decide) (by decide) (by decide)
    (by decide)


/-- C2: for every height H and worker count N >= 1 the partitions are
contiguous, the last start stays within H (row counts never negative),
every row below H lies in exactly one partition, rows inside partitions
lie below H, and when H < N all workers except the last get size 0. -/
theorem C2_partitions_disjoint_cover (hgt N : Nat) (hN : 1 ≤ N) :
    ((partitionsFn hgt N).length = N) ∧
    (∀ i, i + 1 < N →
      (partitionOf hgt N i).1 + (partitionOf hgt N i).2 = (partitionOf hgt N (i + 1)).1) ∧
    ((N - 1) * (hgt / N) ≤ hgt) ∧
    (∀ y, y < hgt → ∃ i, i < N ∧
      ((partitionOf hgt N i).1 ≤ y ∧ y < (partitionOf hgt N i).1 + (partitionOf hgt N i).2) ∧
      ∀ j, j < N →
        ((partitionOf hgt N j).1 ≤ y ∧ y < (partitionOf hgt N j).1 + (partitionOf hgt N j).2) →
        j = i) ∧
    (∀ i y, i < N → (partitionOf hgt N i).1 ≤ y →
      y < (partitionOf hgt N i).1 + (partitionOf hgt N i).2 → y < hgt) ∧
    (hgt < N → ∀ i, i + 1 < N → (partitionOf hgt N i).2 = 0) := by
  have hle := last_start_le hgt N hN
  refine ⟨by simp [partitionsFn], ?_, hle, ?_, ?_, ?_⟩
  · intro i hi
    rw [partitionOf_fst, partitionOf_fst, partitionOf_snd_ne hgt N i (by omega), Nat.succ_mul]
  · intro y hy
    by_cases hcase : (N - 1) * (hgt / N) ≤ y
    · refine ⟨N - 1, by omega, ?_, ?_⟩
      · rw [partitionOf_fst, partitionOf_snd_last]
        omega
      · intro j hj hin
        by_contra hne
        rw [partitionOf_fst, partitionOf_snd_ne hgt N j (by omega)] at hin
        have h1 : y < (j + 1) * (hgt / N) := by rw [Nat.succ_mul]; omega
        have h2 : (j + 1) * (hgt / N) ≤ (N - 1) * (hgt / N) :=
          Nat.mul_le_mul_right _ (by omega)
        omega
    · push_neg at hcase
      have hc1 : 1 ≤ hgt / N := by
        rcases Nat.eq_zero_or_pos (hgt / N) with h0 | h1
        · rw [h0, Nat.mul_zero] at hcase; omega
        · exact h1
      have hiN : y / (hgt / N) < N - 1 :=
        (Nat.div_lt_iff_lt_mul (by omega)).mpr hcase
      refine ⟨y / (hgt / N), by omega, ?_, ?_⟩
      · rw [partitionOf_fst, partitionOf_snd_ne hgt N _ (by omega)]
        refine ⟨Nat.div_mul_le_self y (hgt / N), ?_⟩
        have hdm := Nat.div_add_mod y (hgt / N)
        have hlt := Nat.mod_lt y (show 0 < hgt / N by omega)
        have hcomm : (hgt / N) * (y / (hgt / N)) = y / (hgt / N) * (hgt / N) :=
          Nat.mul_comm _ _
        omega
      · intro j hj hin
        by_cases hjl : j = N - 1
        · subst hjl
          rw [partitionOf_fst] at hin
          omega
        · rw [partitionOf_fst, partitionOf_snd_ne hgt N j hjl] at hin
          have hup : y < (j + 1) * (hgt / N) := by rw [Nat.succ_mul]; omega
          have hj1 : j ≤ y / (hgt / N) :=
            (Nat.le_div_iff_mul_le (by omega)).mpr hin.1
          have hj2 : y / (hgt / N) < j + 1 :=
            (Nat.div_lt_iff_lt_mul (by omega)).mpr hup
          omega
  · intro i y hi hin1 hin2
    by_cases hil : i = N - 1
    · subst hil
      rw [partitionOf_fst, partitionOf_snd_last] at hin2
      omega
    · rw [partitionOf_fst, partitionOf_snd_ne hgt N i hil] at hin2
      have h1 : y < (i + 1) * (hgt / N) := by rw [Nat.succ_mul]; omega
      have h2 : (i + 1) * (hgt / N) ≤ N * (hgt / N) := Nat.mul_le_mul_right _ (by omega)
      have h3 : N * (hgt / N) ≤ hgt := by
        rw [Nat.mul_comm]; exact Nat.div_mul_le_self hgt N
      omega
  · intro hlt i hi
    rw [partitionOf_snd_ne hgt N i (by omega), Nat.div_eq_of_lt hlt]


/-- Witness for C2 at H = 5, N = 23. -/
theorem C2_partitions_disjoint_cover_witness :
    ((partitionsFn 5 23).length = 23) ∧
    (∀ i, i + 1 < 23 →
      (partitionOf 5 23 i).1 + (partitionOf 5 23 i).2 = (partitionOf 5 23 (i + 1)).1) ∧
    ((23 - 1) * (5 / 23) ≤ 5) ∧
    (∀ y, y < 5 → ∃ i, i < 23 ∧
      ((partitionOf 5 23 i).1 ≤ y ∧ y < (partitionOf 5 23 i).1 + (partitionOf 5 23 i).2) ∧
      ∀ j, j < 23 →
        ((partitionOf 5 23 j).1 ≤ y ∧ y < (partitionOf 5 23 j).1 + (partitionOf 5 23 j).2) →
        j = i) ∧
    (∀ i y, i < 23 → (partitionOf 5 23 i).1 ≤ y →
      y < (partitionOf 5 23 i).1 + (partitionOf 5 23 i).2 → y < 5) ∧
    (5 < 23 → ∀ i, i + 1 < 23 → (partitionOf 5 23 i).2 = 0) :=
  C2_partitions_disjoint_cover 5 23 (by decide)


/-- C3: the parallel filter pass equals the single sequential whole-image
convolution: for every worker count N >= 1 and every permutation of the
partition list (any completion order of the workers), the result is
seqConvSpec, independent of N and of interleaving. -/
theorem C3_parallel_equals_sequential (image : List PPMPixel) (w hgt N : Nat) (ps : List (Nat × Nat))
    (hw : 1 ≤ w) (hh : 1 ≤ hgt) (hN : 1 ≤ N) (hperm : ps.Perm (partitionsFn hgt N)) :
    runWorkers image w hgt ps (List.replicate (w * hgt) ⟨0, 0, 0⟩) =
      seqConvSpec image w hgt ∧
    applyFiltersWith N image w hgt = seqConvSpec image w hgt ∧
    apply_filters image w hgt = seqConvSpec image w hgt := by
  refine ⟨?_, applyFiltersWith_eq_seq N image w hgt hw hh hN,
    applyFiltersWith_eq_seq LAPLACIAN_THREADS image w hgt hw hh (by decide)⟩
  exact runWorkers_eq_seq image w hgt ps hw hh (fun y hy => by
    obtain ⟨p, hp, hc⟩ := partitions_cover hgt N y hN hy
    exact ⟨p, hperm.mem_iff.mpr hp, hc⟩)


/-- Witness for C3 with the reversed partition list of the fixed 23
threads on a 2x2 image. -/
theorem C3_parallel_equals_sequential_witness :
    runWorkers [⟨255, 0, 0⟩, ⟨0, 255, 0⟩, ⟨0, 0, 255⟩, ⟨7, 8, 9⟩] 2 2
        ((partitionsFn 2 23).reverse) (List.replicate (2 * 2) ⟨0, 0, 0⟩) =
      seqConvSpec [⟨255, 0, 0⟩, ⟨0, 255, 0⟩, ⟨0, 0, 255⟩, ⟨7, 8, 9⟩] 2 2 ∧
    applyFiltersWith 23 [⟨255, 0, 0⟩, ⟨0, 255, 0⟩, ⟨0, 0, 255⟩, ⟨7, 8, 9⟩] 2 2 =
      seqConvSpec [⟨255, 0, 0⟩, ⟨0, 255, 0⟩, ⟨0, 0, 255⟩, ⟨7, 8, 9⟩] 2 2 ∧
    apply_filters [⟨255, 0, 0⟩, ⟨0, 255, 0⟩, ⟨0, 0, 255⟩, ⟨7, 8, 9⟩] 2 2 =
      seqConvSpec [⟨255, 0, 0⟩, ⟨0, 255, 0⟩, ⟨0, 0, 255⟩, ⟨7, 8, 9⟩] 2 2 :=
  C3_parallel_equals_sequential [⟨255, 0, 0⟩, ⟨0, 255, 0⟩, ⟨0, 0, 255⟩, ⟨7, 8, 9⟩] 2 2 23
    ((partitionsFn 2 23).reverse) (by decide) (by decide) (by decide) (by decide)


/-- C4: filtering a uniform image of any positive size yields the all-zero
image. -/
theorem C4_uniform_image_all_zero (w hgt : Nat) (p : PPMPixel) (hw : 1 ≤ w) (hh : 1 ≤ hgt) :
    apply_filters (List.replicate (w * hgt) p) w hgt = List.replicate (w * hgt) ⟨0, 0, 0⟩ := by
  have he : apply_filters (List.replicate (w * hgt) p) w hgt =
      seqConvSpec (List.replicate (w * hgt) p) w hgt :=
    applyFiltersWith_eq_seq LAPLACIAN_THREADS (List.replicate (w * hgt) p) w hgt hw hh
      (by decide)
  rw [he]
  apply List.ext_getElem
  · simp [seqConvSpec]
  intro i h1 h2
  simp only [seqConvSpec, List.getElem_map, List.getElem_range, List.getElem_replicate]
  exact specPixel_uniform w hgt _ _ _ p hw hh rfl


/-- Witness for C4: the 2x2 all-red image. -/
theorem C4_uniform_image_all_zero_witness : apply_filters (List.replicate (2 * 2) ⟨255, 0, 0⟩) 2 2 =
    List.replicate (2 * 2) ⟨0, 0, 0⟩ :=
  C4_uniform_image_all_zero 2 2 ⟨255, 0, 0⟩ (by decide) (by decide)

/-- C5: contrary to the claim, when the destination cannot be opened
write_image does not skip the encoding step: after printing the error it
falls through into fprintf on the NULL stream and crashes (code bug; the
missing early return). -/
theorem C5_write_image_open_failure_crashes : ∀ (img : List PPMPixel) (w h : Nat),
    write_image false img w h = WriteOutcome.crashed := fun _ _ _ => rfl


/-- C6: a decode failure in task j yields a failed outcome with no output
for that input, leaves every other task's outcome unchanged (replacing
input j cannot affect them), successful siblings still produce their
laplacian(k+1).ppm outputs, and the batch completes with its timing total
when no decode loop hangs. -/
theorem C6_decode_failure_is_task_local (files : List (Option (List Nat))) (j : Nat) (e : DecodeError)
    (hj : j < files.length) (herr : read_image (files.getD j none) = .err e) :
    (batchOutcomes files).getD j TaskOutcome.hang = .failed e ∧
    (∀ g k, k ≠ j → (batchOutcomes (files.set j g)).getD k TaskOutcome.hang =
      (batchOutcomes files).getD k TaskOutcome.hang) ∧
    (∀ k w h px, k < files.length → read_image (files.getD k none) = .ok w h px →
      (batchOutcomes files).getD k TaskOutcome.hang =
        .output (outName k) (write_image_bytes (apply_filters px w h) w h)) ∧
    ((∀ k, k < files.length → read_image (files.getD k none) ≠ .hang) →
      batchCompletes files) := by
  refine ⟨?_, ?_, ?_, ?_⟩
  · rw [batchOutcomes, batchRun_getD files 0 j, if_pos hj]
    unfold manage_image_file
    rw [herr]
  · intro g k hk
    rw [batchOutcomes, batchOutcomes, batchRun_getD _ 0 k, batchRun_getD files 0 k,
      List.length_set, getD_set_ne_opt files j k g hk]
  · intro k w h px hk hok
    rw [batchOutcomes, batchRun_getD files 0 k, if_pos hk]
    unfold manage_image_file
    rw [hok]
    rw [Nat.zero_add]
  · intro hnh o ho
    obtain ⟨k, hk, he⟩ := batchRun_mem files 0 o ho
    subst he
    unfold manage_image_file
    cases hr : read_image (files.getD k none) with
    | ok w h px => simp
    | err e2 => simp
    | hang => exact absurd hr (hnh k hk)


/-- Witness for C6: a 3-file batch whose second file has a bad marker. -/
theorem C6_decode_failure_is_task_local_witness :
    (batchOutcomes [some [80, 54, 10, 49, 32, 49, 10, 50, 53, 53, 10, 5, 6, 7], some [88, 54, 10], some [80, 54, 10, 49, 32, 49, 10, 50, 53, 53, 10, 9, 9, 9]]).getD 1 TaskOutcome.hang = .failed DecodeError.formatError ∧
    (∀ g k, k ≠ 1 → (batchOutcomes ([some [80, 54, 10, 49, 32, 49, 10, 50, 53, 53, 10, 5, 6, 7], some [88, 54, 10], some [80, 54, 10, 49, 32, 49, 10, 50, 53, 53, 10, 9, 9, 9]].set 1 g)).getD k TaskOutcome.hang =
      (batchOutcomes [some [80, 54, 10, 49, 32, 49, 10, 50, 53, 53, 10, 5, 6, 7], some [88, 54, 10], some [80, 54, 10, 49, 32, 49, 10, 50, 53, 53, 10, 9, 9, 9]]).getD k TaskOutcome.hang) ∧
    (∀ k w h px, k < ([some [80, 54, 10, 49, 32, 49, 10, 50, 53, 53, 10, 5, 6, 7], some [88, 54, 10], some [80, 54, 10, 49, 32, 49, 10, 50, 53, 53, 10, 9, 9, 9]] : List (Option (List Nat))).length →
      read_image ([some [80, 54, 10, 49, 32, 49, 10, 50, 53, 53, 10, 5, 6, 7], some [88, 54, 10], some [80, 54, 10, 49, 32, 49, 10, 50, 53, 53, 10, 9, 9, 9]].getD k none) = .ok w h px →
      (batchOutcomes [some [80, 54, 10, 49, 32, 49, 10, 50, 53, 53, 10, 5, 6, 7], some [88, 54, 10], some [80, 54, 10, 49, 32, 49, 10, 50, 53, 53, 10, 9, 9, 9]]).getD k TaskOutcome.hang =
        .output (outName k) (write_image_bytes (apply_filters px w h) w h)) ∧
    ((∀ k, k < ([some [80, 54, 10, 49, 32, 49, 10, 50, 53, 53, 10, 5, 6, 7], some [88, 54, 10], some [80, 54, 10, 49, 32, 49, 10, 50, 53, 53, 10, 9, 9, 9]] : List (Option (List Nat))).length →
      read_image ([some [80, 54, 10, 49, 32, 49, 10, 50, 53, 53, 10, 5, 6, 7], some [88, 54, 10], some [80, 54, 10, 49, 32, 49, 10, 50, 53, 53, 10, 9, 9, 9]].getD k none) ≠ .hang) → batchCompletes [some [80, 54, 10, 49, 32, 49, 10, 50, 53, 53, 10, 5, 6, 7], some [88, 54, 10], some [80, 54, 10, 49, 32, 49, 10, 50, 53, 53, 10, 9, 9, 9]]) :=
  C6_decode_failure_is_task_local [some [80, 54, 10, 49, 32, 49, 10, 50, 53, 53, 10, 5, 6, 7], some [88, 54, 10], some [80, 54, 10, 49, 32, 49, 10, 50, 53, 53, 10, 9, 9, 9]] 1 DecodeError.formatError (by decide) (by decide)

/-- C7: decode of encode is the identity on well-formed images with max
value 255: read_image parses back the P6 header write_image wrote and
returns the same width, height and pixels. -/
theorem C7_decode_encode_roundtrip (w h : Nat) (pixels : List PPMPixel) (hw : 1 ≤ w) (hh : 1 ≤ h)
    (hwh : w * h < 2 ^ 31) (hlen : pixels.length = w * h)
    (hbytes : ∀ p ∈ pixels, p.r < 256 ∧ p.g < 256 ∧ p.b < 256) :
    read_image (some (write_image_bytes pixels w h)) = .ok w h pixels := by
  have hwle : w ≤ w * h := Nat.le_mul_of_pos_right w (by omega)
  have hhle : h ≤ w * h := Nat.le_mul_of_pos_left h (by omega)
  show read_image_bytes (write_image_bytes pixels w h) = .ok w h pixels
  unfold write_image_bytes
  rw [List.take_of_length_le (by omega)]
  rw [read_header w h hw hh (by omega) (by omega) (by omega) (pixelBytes pixels)]
  rw [← hlen, readPixels_pixelBytes]


/-- Witness for C7 on a 1x1 image. -/
theorem C7_decode_encode_roundtrip_witness :
    read_image (some (write_image_bytes [⟨10, 20, 30⟩] 1 1)) = .ok 1 1 [⟨10, 20, 30⟩] :=
  C7_decode_encode_roundtrip 1 1 [⟨10, 20, 30⟩] (by decide) (by decide) (by decide)
    (by decide) (by decide)

/-- C8: on a valid header followed by short pixel data, read_image still
returns ok with the partially filled buffer: it stops at the first short
fread, the buffer holds length/3 pixels, and each stored pixel matches
the bytes before the shortfall. -/
theorem C8_short_pixel_data_partial_buffer (w h : Nat) (bytes : List Nat) (hw : 1 ≤ w) (hh : 1 ≤ h)
    (hwh : w * h < 2 ^ 31) (hshort : bytes.length < 3 * (w * h)) :
    read_image_bytes (write_header w h ++ bytes) = .ok w h (readPixels (w * h) bytes) ∧
    (readPixels (w * h) bytes).length = bytes.length / 3 ∧
    ∀ i, i < (readPixels (w * h) bytes).length →
      (readPixels (w * h) bytes).getD i ⟨0, 0, 0⟩ =
        ⟨bytes.getD (3 * i) 0, bytes.getD (3 * i + 1) 0, bytes.getD (3 * i + 2) 0⟩ := by
  have hwle : w ≤ w * h := Nat.le_mul_of_pos_right w (by omega)
  have hhle : h ≤ w * h := Nat.le_mul_of_pos_left h (by omega)
  refine ⟨read_header w h hw hh (by omega) (by omega) (by omega) bytes,
    readPixels_short (w * h) bytes hshort,
    fun i hi => readPixels_getD (w * h) bytes i hi⟩


/-- Witness for C8: a 1x2 image with only 4 data bytes. -/
theorem C8_short_pixel_data_partial_buffer_witness :
    read_image_bytes (write_header 1 2 ++ [1, 2, 3, 4]) =
      .ok 1 2 (readPixels (1 * 2) [1, 2, 3, 4]) ∧
    (readPixels (1 * 2) [1, 2, 3, 4]).length = ([1, 2, 3, 4] : List Nat).length / 3 ∧
    ∀ i, i < (readPixels (1 * 2) [1, 2, 3, 4]).length →
      (readPixels (1 * 2) [1, 2, 3, 4]).getD i ⟨0, 0, 0⟩ =
        ⟨([1, 2, 3, 4] : List Nat).getD (3 * i) 0,
         ([1, 2, 3, 4] : List Nat).getD (3 * i + 1) 0,
         ([1, 2, 3, 4] : List Nat).getD (3 * i + 2) 0⟩ :=
  C8_short_pixel_data_partial_buffer 1 2 [1, 2, 3, 4] (by decide) (by decide)
    (by decide) (by decide)

/-- C9 counterexample: decode does not terminate on every finite stream:
on a stream ending inside a header comment, and on one ending right
after the max colour value with no following newline, the newline-waiting
loops read EOF forever (the hang result of the embedding). -/
theorem C9_counterexample_decode_hangs_at_eof :
    read_image_bytes [80, 54, 10, 35] = DecodeResult.hang ∧
    read_image_bytes [80, 54, 10, 49, 32, 49, 10, 50, 53, 53] = DecodeResult.hang := by
  decide


/-- C9 (amended): decode terminates on every finite input stream whose
final byte is a newline; in particular whenever every header line is
newline-terminated. -/
theorem C9_decode_terminates_on_newline_terminated_input (s : List Nat) (h10 : s.getLast? = some 10) :
    read_image_bytes s ≠ DecodeResult.hang := by
  unfold read_image_bytes
  cases hfg : fgets63 s with
  | none => simp
  | some pr =>
    obtain ⟨line, s1⟩ := pr
    have hs1 : s1 <:+ s := fgets63_suffix s line s1 hfg
    by_cases hmk : markerOk line = true
    case neg => simp [hmk]
    simp only [hmk, if_true]
    have hsc_ex : ∃ s2, skipComments s1 = some s2 := by
      unfold skipComments
      refine skipCommentsAux_total s1 false (by simp) ?_
      by_cases hne : s1 = []
      · exact Or.inl hne
      · exact Or.inr (suffix_last s s1 hs1 hne h10)
    obtain ⟨s2, hsc⟩ := hsc_ex
    simp only [hsc]
    have hs2 : s2 <:+ s := (skipCommentsAux_suffix s1 false s2 hsc).trans hs1
    cases hp1 : parseLong s2 with
    | none => simp [hp1]
    | some pr1 =>
      obtain ⟨wv, s3⟩ := pr1
      simp only [hp1]
      have hs3 : s3 <:+ s := (parseLong_suffix s2 wv s3 hp1).trans hs2
      cases hp2 : parseLong s3 with
      | none => simp [hp2]
      | some pr2 =>
        obtain ⟨hv, s4⟩ := pr2
        simp only [hp2]
        have hs4 : s4 <:+ s := (parseLong_suffix s3 hv s4 hp2).trans hs3
        cases hp3 : parseLong s4 with
        | none => simp [hp3]
        | some pr3 =>
          obtain ⟨rv, s5⟩ := pr3
          simp only [hp3]
          have hs5 : s5 <:+ s := (parseLong_suffix s4 rv s5 hp3).trans hs4
          by_cases hrv : rv = (RGB_COMPONENT_COLOR : Int)
          case neg => simp [hrv]
          simp only [if_pos hrv]
          have hs4ne : s4 ≠ [] := by
            intro he
            rw [he, parseLong_nil] at hp3
            cases hp3
          have h410 : s4.getLast? = some 10 := suffix_last s s4 hs4 hs4ne h10
          by_cases hs5e : s5 = []
          · exact (parseLong_rest_nonempty s4 rv (by rw [hp3, hs5e]) h410).elim
          · have h510 := suffix_last s s5 hs5 hs5e h10
            obtain ⟨s6, hsn⟩ := skipToNl_total s5 hs5e h510
            simp only [hsn]
            simp


/-- Witness for amended C9: a complete header ending in a newline. -/
theorem C9_decode_terminates_on_newline_terminated_input_witness :
    read_image_bytes [80, 54, 10, 49, 32, 49, 10, 50, 53, 53, 10] ≠ DecodeResult.hang :=
  C9_decode_terminates_on_newline_terminated_input [80, 54, 10, 49, 32, 49, 10, 50, 53, 53, 10] (by decide)


/-- C10: the marker validation fails with FormatError exactly when the
file does not start with the two bytes 'P','6'; a file starting
"P6xyz" passes the marker check. -/
theorem C10_marker_check_iff_P6_prefix :
    (∀ s : List Nat,
      read_image_bytes s = .err .formatError ↔ ¬ ∃ t, s = 80 :: 54 :: t) ∧
    read_image_bytes [80, 54, 120, 121, 122] ≠ .err .formatError := by
  have hforward : ∀ s : List Nat, (∃ t, s = 80 :: 54 :: t) →
      read_image_bytes s ≠ .err .formatError := by
    intro s ⟨t, hs⟩
    subst hs
    exact no_formatError_of_marker _ _ _ (fgets_P6_any t) rfl
  have hback : ∀ s : List Nat, ¬ (∃ t, s = 80 :: 54 :: t) →
      read_image_bytes s = .err .formatError := by
    intro s hne
    match s with
    | [] => rfl
    | c :: rest =>
      by_cases hc10 : c = 10
      · subst hc10
        exact formatError_of_marker_false _ _ _ (fgets_cons_nl rest) rfl
      · by_cases hc80 : c = 80
        · subst hc80
          match rest with
          | [] =>
            refine formatError_of_marker_false _ _ _ (fgets_cons_ne 80 [] (by omega)) ?_
            rfl
          | d :: r2 =>
            have hd54 : ¬ d = 54 := by
              intro he
              subst he
              exact hne ⟨r2, rfl⟩
            by_cases hd10 : d = 10
            · subst hd10
              refine formatError_of_marker_false _ _ _ (fgets_cons_ne 80 _ (by omega)) ?_
              rw [show (62 : Nat) = 61 + 1 from rfl, fgetsAux_cons_nl 61 r2]
              rfl
            · refine formatError_of_marker_false _ _ _ (fgets_cons_ne 80 _ (by omega)) ?_
              rw [show (62 : Nat) = 61 + 1 from rfl, fgetsAux_cons_ne 61 d r2 hd10]
              simp [markerOk, hd54]
        · refine formatError_of_marker_false _ _ _ (fgets_cons_ne c rest hc10) ?_
          simp [markerOk, hc80]
  refine ⟨fun s => ⟨fun hfe hex => hforward s hex hfe, hback s⟩, ?_⟩
  exact hforward [80, 54, 120, 121, 122] ⟨[120, 121, 122], rfl⟩

